import Mathlib

/-!
# Verification of the poker_ai web client against its specification

This development shallowly embeds the React frontend of the `poker_ai`
repository (hand-strength display, action controls, table rendering,
betting-round indicator, game log) together with a model of the poker
engine described by the specification, and proves or refutes the frozen
claims about the system.

Frontend definitions are translated directly from the JavaScript source
files.  The poker engine itself (a Flask backend) is not part of the
available sources; where a claim depends on engine behaviour, the engine
is modelled from the specification, and each such definition carries a
doc comment starting with `Modelled from the spec:`.
-/

namespace PokerAI

/-! ## Hand strength display (HandStrength.js)

`getHandTypeText` converts the numeric hand-type category received from
the backend into descriptive text.  The JavaScript `switch` is on the
numeric `handType` prop; any value outside 1..10 falls to the default. -/

/-- `getHandTypeText` from `HandStrength.js`: the switch on `handType`. -/
def handTypeText (handType : Int) : String :=
  if handType = 1 then "Royal Flush"
  else if handType = 2 then "Straight Flush"
  else if handType = 3 then "Four of a Kind"
  else if handType = 4 then "Full House"
  else if handType = 5 then "Flush"
  else if handType = 6 then "Straight"
  else if handType = 7 then "Three of a Kind"
  else if handType = 8 then "Two Pair"
  else if handType = 9 then "Pair"
  else if handType = 10 then "High Card"
  else "Unknown"

/-! ## Action controls (ActionControls.js)

The component receives `validActions`, `currentBet`, `minRaise` and
`playerStack` as props.  Amounts are modelled as rationals (the UI works
with fractional dollar amounts, e.g. `toFixed(2)`). -/

/-- JavaScript `a || b` on numbers: `a` is falsy exactly when it is `0`
(the `minRaise` prop is defaulted to a number by the caller). -/
def jsOr (a b : ℚ) : ℚ :=
  if a = 0 then b else a

/-- `const minBet = minRaise || currentBet * 2;` from `ActionControls.js`. -/
def minBet (minRaise currentBet : ℚ) : ℚ :=
  jsOr minRaise (currentBet * 2)

/-- `const smallIncrement = Math.max(1, Math.floor(minRaise / 2));`
from `ActionControls.js`. -/
def smallIncrement (minRaise : ℚ) : ℚ :=
  max 1 ((⌊minRaise / 2⌋ : ℤ) : ℚ)

/-- The props of the `ActionControls` component. -/
structure ControlsProps where
  validActions : List String
  currentBet : ℚ
  minRaise : ℚ
  playerStack : ℚ
deriving DecidableEq, Repr

/-- The buttons a user can press in `ActionControls`. -/
inductive Click
  | fold
  | check
  | call
  | bet
  | raise
  | allIn
deriving DecidableEq, Repr

/-- The `(action_type, amount)` pair each button click passes to
`onAction` in `ActionControls.js`; `none` when the button is not
rendered because the action is not in `validActions`.  `FOLD` and
`CHECK` use the default `amount = 0` of `handleAction`; `CALL` sends
`currentBet`; `BET` and `RAISE` send the current `betAmount` state;
`ALL_IN` sends `playerStack`. -/
def clickPayload (p : ControlsProps) (betAmount : ℚ) :
    Click → Option (String × ℚ)
  | .fold =>
      if p.validActions.contains "FOLD" then some ("FOLD", 0) else none
  | .check =>
      if p.validActions.contains "CHECK" then some ("CHECK", 0) else none
  | .call =>
      if p.validActions.contains "CALL" then some ("CALL", p.currentBet) else none
  | .bet =>
      if p.validActions.contains "BET" then some ("BET", betAmount) else none
  | .raise =>
      if p.validActions.contains "RAISE" then some ("RAISE", betAmount) else none
  | .allIn =>
      if p.validActions.contains "ALL_IN" then some ("ALL_IN", p.playerStack) else none

/-- The values the `betAmount` state of `ActionControls` can take.
The initial value is `useState(minRaise || 0)` (and a `useEffect` resets
it to `minRaise` whenever `minRaise > 0`); `handleBetChange` accepts any
slider value, which the range input clamps between its `min` (the BET
slider uses `minBet`, the RAISE slider uses `minRaise`) and its `max`
(`playerStack`); `handleBetIncrement` and `handleBetDecrement` add or
subtract `smallIncrement`, clamped to `playerStack` above and `minRaise`
below. -/
inductive ReachableBet (p : ControlsProps) : ℚ → Prop
  | init : ReachableBet p (jsOr p.minRaise 0)
  | effectReset : 0 < p.minRaise → ReachableBet p p.minRaise
  | sliderBet (b v : ℚ) : ReachableBet p b →
      minBet p.minRaise p.currentBet ≤ v → v ≤ p.playerStack →
      ReachableBet p v
  | sliderRaise (b v : ℚ) : ReachableBet p b →
      p.minRaise ≤ v → v ≤ p.playerStack →
      ReachableBet p v
  | increment (b : ℚ) : ReachableBet p b →
      ReachableBet p (min (b + smallIncrement p.minRaise) p.playerStack)
  | decrement (b : ℚ) : ReachableBet p b →
      ReachableBet p (max (b - smallIncrement p.minRaise) p.minRaise)

/-! ## Table rendering (PokerTable.js) -/

/-- The `showCards` prop computed for each `PlayerSeat` in
`PokerTable.js`:
`showCards={player.is_human || gameState.betting_round === 'SHOWDOWN'}`. -/
def showCards (isHuman : Bool) (bettingRound : String) : Bool :=
  isHuman || (bettingRound == "SHOWDOWN")

/-! ## Betting round indicator (BettingRound.js, bundled with
HandResult.js) -/

/-- `const rounds = ['PREFLOP', 'FLOP', 'TURN', 'RIVER'];` -/
def roundsList : List String :=
  ["PREFLOP", "FLOP", "TURN", "RIVER"]

/-- JavaScript `Array.prototype.indexOf`: index of the first occurrence,
or `-1` when absent. -/
def jsIndexOf (l : List String) (x : String) : Int :=
  match l.indexOf? x with
  | some i => (i : Int)
  | none => -1

/-- The `isPast` flag of a round indicator in `BettingRound.js`:
`rounds.indexOf(r.toUpperCase()) < currentIndex`, with
`currentIndex = rounds.indexOf(round.toUpperCase())`.  The round names
involved are already upper-case, so `toUpperCase()` is the identity on
them. -/
def isPast (r currentRound : String) : Bool :=
  jsIndexOf roundsList r < jsIndexOf roundsList currentRound

/-! ## Game log (GameLog.js) and log synchronisation (PokerTable.js) -/

/-- An entry of `gameState.hand_history` as consumed by the frontend. -/
structure HistoryItem where
  type : String
  player_name : String
  action : String
  amount : ℚ
  data : List String
deriving DecidableEq, Repr

/-- An entry of the `gameLog` React state. -/
structure LogEntry where
  type : String
  playerName : String
  action : String
  amount : ℚ
  data : List String
deriving DecidableEq, Repr

/-- The body of `gameState.hand_history.map(item => ...)` in the
`useEffect` of `PokerTable.js`: `action` items are projected onto
`{type, playerName, action, amount}`, every other item is passed
through unchanged. -/
def mapHistoryItem (item : HistoryItem) : LogEntry :=
  if item.type = "action" then
    { type := "action", playerName := item.player_name,
      action := item.action, amount := item.amount, data := [] }
  else
    { type := item.type, playerName := item.player_name,
      action := item.action, amount := item.amount, data := item.data }

/-- `const newLog = gameState.hand_history.map(item => ...)`. -/
def historyToLog (handHistory : List HistoryItem) : List LogEntry :=
  handHistory.map mapHistoryItem

/-- The `setGameLog(newLog)` update performed by the `useEffect` of
`PokerTable.js` when the game state changes: the next log is computed
from `hand_history` alone, the previous log value is discarded. -/
def nextGameLog (_prevLog : List LogEntry) (handHistory : List HistoryItem) :
    List LogEntry :=
  historyToLog handHistory

/-- `formatAction` from `GameLog.js`, with the dollar amount kept as a
number. -/
def formatAction (action : String) (amount : ℚ) : String × ℚ :=
  if action = "FOLD" then ("folds", 0)
  else if action = "CHECK" then ("checks", 0)
  else if action = "CALL" then ("calls", amount)
  else if action = "BET" then ("bets", amount)
  else if action = "RAISE" then ("raises to", amount)
  else if action = "ALL_IN" then ("goes all-in with", amount)
  else (action, 0)

/-- `formatReason` from `GameLog.js`. -/
def formatReason (reason : String) : String :=
  if reason = "all_others_folded" then "All other players folded"
  else reason

/-! ## Hand result modal (HandResult.js)

The fold (non-showdown) branch of `HandResult` renders exactly the
winner's name, the won amount and a fixed reason line; it renders no
hole cards and no hand description. -/

/-- The result object handed to `HandResult` when the hand did not reach
showdown. -/
structure FoldResultProps where
  winnerName : String
  amount : ℚ
deriving DecidableEq, Repr

/-- What the fold branch of `HandResult.js` displays: only the winner's
name, the amount won and the fixed reason text; `holeCards` and
`handDescription` fields are absent from the rendered output. -/
structure FoldDisplay where
  winnerName : String
  amount : ℚ
  reasonText : String
  holeCards : Option (List String)
  handDescription : Option String
deriving DecidableEq, Repr

/-- The fold (`result.type !== 'showdown'`) branch of `HandResult.js`. -/
def renderFoldResult (r : FoldResultProps) : FoldDisplay :=
  { winnerName := r.winnerName, amount := r.amount,
    reasonText := "All other players folded",
    holeCards := none, handDescription := none }

end PokerAI

namespace PokerAI.Engine

/-! ## The poker engine, modelled from the specification

The rules engine (betting state machine, pot manager, orchestrator) is a
Flask backend that is not among the available sources; the definitions
in this namespace are modelled from the specification's description of
it.  Chip amounts are non-negative integer currency units. -/

/-- Modelled from the spec: a player of the engine — stack, current-street
bet and folded status (the fields the chip-conservation and fold-end
claims depend on). -/
structure EPlayer where
  stack : ℕ
  bet : ℕ
  folded : Bool
deriving DecidableEq, Repr

/-- Modelled from the spec: the mutable hand state — seated players and
the active pots. -/
structure EState where
  players : List EPlayer
  pots : List ℕ
deriving DecidableEq, Repr

/-- `Σ player.stack + Σ player.current_bet + Σ pot.amount`. -/
def chipTotal (s : EState) : ℕ :=
  (s.players.map EPlayer.stack).sum + (s.players.map EPlayer.bet).sum
    + s.pots.sum

/-- Modelled from the spec: the chip-moving events of one hand — blind
posting, the player actions, street completion (which sweeps the
current-street bets into a pot) and pot settlement (which distributes
the pot amounts back to stacks). -/
inductive Ev
  | postBlind (i amt : ℕ)
  | fold (i : ℕ)
  | check (i : ℕ)
  | put (i amt : ℕ)
  | allIn (i : ℕ)
  | endStreet
  | settle (dist : List (ℕ × ℕ))
deriving DecidableEq, Repr

/-- Move `amt` chips from a player's stack to their current-street bet. -/
def moveChips (p : EPlayer) (amt : ℕ) : EPlayer :=
  { p with stack := p.stack - amt, bet := p.bet + amt }

/-- Add `ia.2` chips to the stack of player `ia.1`. -/
def addChips (ps : List EPlayer) (ia : ℕ × ℕ) : Option (List EPlayer) :=
  if h : ia.1 < ps.length then
    some (ps.set ia.1
      { ps.get ⟨ia.1, h⟩ with stack := (ps.get ⟨ia.1, h⟩).stack + ia.2 })
  else none

/-- Apply a whole settlement distribution to the players. -/
def settleAll (ps : List EPlayer) : List (ℕ × ℕ) → Option (List EPlayer)
  | [] => some ps
  | d :: ds =>
      match addChips ps d with
      | some ps2 => settleAll ps2 ds
      | none => none

/-- Modelled from the spec: applying one legal event to the hand state.
Chip-moving player events require the amount to be covered by the
player's stack (`IllegalAmount` otherwise — modelled as `none`);
`endStreet` sweeps every current-street bet into a new pot and resets
the per-street contributions; `settle` distributes exactly the pot
amounts back to stacks and consumes the pots. -/
def applyEv (s : EState) : Ev → Option EState
  | .postBlind i amt =>
      if h : i < s.players.length then
        if amt ≤ (s.players.get ⟨i, h⟩).stack then
          some { s with
            players := s.players.set i (moveChips (s.players.get ⟨i, h⟩) amt) }
        else none
      else none
  | .fold i =>
      if h : i < s.players.length then
        some { s with
          players := s.players.set i { s.players.get ⟨i, h⟩ with folded := true } }
      else none
  | .check i =>
      if i < s.players.length then some s else none
  | .put i amt =>
      if h : i < s.players.length then
        if amt ≤ (s.players.get ⟨i, h⟩).stack then
          some { s with
            players := s.players.set i (moveChips (s.players.get ⟨i, h⟩) amt) }
        else none
      else none
  | .allIn i =>
      if h : i < s.players.length then
        some { s with
          players := s.players.set i
            (moveChips (s.players.get ⟨i, h⟩) (s.players.get ⟨i, h⟩).stack) }
      else none
  | .endStreet =>
      some { players := s.players.map (fun p => { p with bet := 0 }),
             pots := s.pots ++ [(s.players.map EPlayer.bet).sum] }
  | .settle dist =>
      if (dist.map Prod.snd).sum = s.pots.sum then
        match settleAll s.players dist with
        | some ps2 => some { players := ps2, pots := [] }
        | none => none
      else none

/-- Run a sequence of events, failing if any single event is illegal. -/
def runEvents (s : EState) : List Ev → Option EState
  | [] => some s
  | e :: es =>
      match applyEv s e with
      | some s2 => runEvents s2 es
      | none => none

/-- Modelled from the spec: `create_session` seats the players with their
starting stacks, no posted bets and no pots. -/
def initSession (stackList : List ℕ) : EState :=
  { players := stackList.map (fun c => { stack := c, bet := 0, folded := false }),
    pots := [] }

/-- Modelled from the spec: the betting rounds
`{Preflop, Flop, Turn, River, Showdown}`. -/
inductive Round
  | preflop
  | flop
  | turn
  | river
  | showdown
deriving DecidableEq, Repr, Fintype

/-- The position of a round in the spec's order
Preflop → Flop → Turn → River → Showdown. -/
def Round.idx : Round → ℕ
  | .preflop => 0
  | .flop => 1
  | .turn => 2
  | .river => 3
  | .showdown => 4

/-- Modelled from the spec: street progression; Showdown is terminal. -/
def nextRound : Round → Round
  | .preflop => .flop
  | .flop => .turn
  | .turn => .river
  | .river => .showdown
  | .showdown => .showdown

/-- The indices of the players that have not folded. -/
def nonFolded (s : EState) : List ℕ :=
  (List.range s.players.length).filter fun i =>
    !(s.players.getD i { stack := 0, bet := 0, folded := true }).folded

/-- How a hand ends: a fold-end carries only the winner, the amount won
and the reason; a showdown-end carries the evaluated hands. -/
inductive HandEndResult
  | foldEnd (winner amount : ℕ) (reason : String)
  | showdownEnd (evals : List (ℕ × ℕ))
deriving DecidableEq, Repr

/-- Modelled from the spec: hand termination.  If exactly one non-folded
player remains, the hand ends immediately: every active pot is awarded
to that player with reason `all_others_folded`, and the hand evaluator
is not consulted.  Otherwise the hand goes to showdown and every
non-folded player's hand is evaluated. -/
def finishHand (s : EState) (evalHand : ℕ → ℕ) : HandEndResult :=
  match nonFolded s with
  | [w] => .foldEnd w s.pots.sum "all_others_folded"
  | ws => .showdownEnd (ws.map fun i => (i, evalHand i))

/-- Modelled from the spec: the engine's error taxonomy (the cases the
claims need). -/
inductive EngineError
  | InvalidAction
  | IllegalAmount
deriving DecidableEq, Repr

/-- Modelled from the spec: `submit_action` for a BET/RAISE.  An amount
below the current minimum raise or above the player's available stack is
rejected with `IllegalAmount`, returning the state unchanged (no
mutation); a legal amount moves the chips. -/
def submitBetRaise (s : EState) (minRaiseAmt i amt : ℕ) :
    EState × Option EngineError :=
  if h : i < s.players.length then
    if amt < minRaiseAmt ∨ (s.players.get ⟨i, h⟩).stack < amt then
      (s, some .IllegalAmount)
    else
      ({ s with players := s.players.set i (moveChips (s.players.get ⟨i, h⟩) amt) },
        none)
  else (s, some .InvalidAction)

/-- Sum of the players' stacks. -/
def stackSum (ps : List EPlayer) : ℕ := (ps.map EPlayer.stack).sum

/-- Sum of the players' current-street bets. -/
def betSum (ps : List EPlayer) : ℕ := (ps.map EPlayer.bet).sum

theorem chipTotal_eq (s : EState) :
    chipTotal s = stackSum s.players + betSum s.players + s.pots.sum := rfl

theorem sum_map_set (f : EPlayer → ℕ) (l : List EPlayer) :
    ∀ (i : ℕ) (h : i < l.length) (x : EPlayer),
      ((l.set i x).map f).sum + f (l.get ⟨i, h⟩) = (l.map f).sum + f x := by
  induction l with
  | nil => intro i h x; simp at h
  | cons a l ih =>
      intro i h x
      cases i with
      | zero => simp [List.set]; omega
      | succ n =>
          have hn : n < l.length := by simpa using h
          have := ih n hn x
          simp only [List.set, List.map_cons, List.sum_cons, List.get_cons_succ]
          omega

theorem addChips_sums (ps ps2 : List EPlayer) (ia : ℕ × ℕ)
    (h : addChips ps ia = some ps2) :
    stackSum ps2 = stackSum ps + ia.2 ∧ betSum ps2 = betSum ps := by
  unfold addChips at h
  split at h
  · next hlt =>
      injection h with h
      subst h
      have h1 := sum_map_set EPlayer.stack ps ia.1 hlt
        { ps.get ⟨ia.1, hlt⟩ with stack := (ps.get ⟨ia.1, hlt⟩).stack + ia.2 }
      have h2 := sum_map_set EPlayer.bet ps ia.1 hlt
        { ps.get ⟨ia.1, hlt⟩ with stack := (ps.get ⟨ia.1, hlt⟩).stack + ia.2 }
      simp only [stackSum, betSum]
      simp at h1 h2 ⊢
      all_goals omega
  · exact absurd h (by simp)

theorem settleAll_sums (ds : List (ℕ × ℕ)) :
    ∀ (ps ps2 : List EPlayer), settleAll ps ds = some ps2 →
      stackSum ps2 = stackSum ps + (ds.map Prod.snd).sum ∧
        betSum ps2 = betSum ps := by
  induction ds with
  | nil =>
      intro ps ps2 h
      simp only [settleAll] at h
      injection h with h
      subst h
      simp
  | cons d ds ih =>
      intro ps ps2 h
      simp only [settleAll] at h
      cases hd : addChips ps d with
      | none => rw [hd] at h; exact absurd h (by simp)
      | some psMid =>
          rw [hd] at h
          have h1 := addChips_sums ps psMid d hd
          have h2 := ih psMid ps2 h
          simp only [List.map_cons, List.sum_cons]
          omega

theorem chipTotal_moveChips (s : EState) (i amt : ℕ)
    (h : i < s.players.length)
    (hamt : amt ≤ (s.players.get ⟨i, h⟩).stack) :
    chipTotal { s with
        players := s.players.set i (moveChips (s.players.get ⟨i, h⟩) amt) } =
      chipTotal s := by
  have h1 := sum_map_set EPlayer.stack s.players i h
    (moveChips (s.players.get ⟨i, h⟩) amt)
  have h2 := sum_map_set EPlayer.bet s.players i h
    (moveChips (s.players.get ⟨i, h⟩) amt)
  simp only [chipTotal]
  simp [moveChips] at h1 h2 hamt ⊢
  all_goals omega

theorem applyEv_conserves (s s2 : EState) (e : Ev)
    (h : applyEv s e = some s2) : chipTotal s2 = chipTotal s := by
  cases e with
  | postBlind i amt =>
      simp only [applyEv] at h
      split at h
      next hlt =>
        split at h
        next hamt =>
          injection h with h
          subst h
          exact chipTotal_moveChips s i amt hlt hamt
        next => exact absurd h (by simp)
      next => exact absurd h (by simp)
  | put i amt =>
      simp only [applyEv] at h
      split at h
      next hlt =>
        split at h
        next hamt =>
          injection h with h
          subst h
          exact chipTotal_moveChips s i amt hlt hamt
        next => exact absurd h (by simp)
      next => exact absurd h (by simp)
  | allIn i =>
      simp only [applyEv] at h
      split at h
      next hlt =>
        injection h with h
        subst h
        exact chipTotal_moveChips s i _ hlt le_rfl
      next => exact absurd h (by simp)
  | fold i =>
      simp only [applyEv] at h
      split at h
      next hlt =>
        injection h with h
        subst h
        have h1 := sum_map_set EPlayer.stack s.players i hlt
          { s.players.get ⟨i, hlt⟩ with folded := true }
        have h2 := sum_map_set EPlayer.bet s.players i hlt
          { s.players.get ⟨i, hlt⟩ with folded := true }
        simp only [chipTotal]
        simp at h1 h2 ⊢
        all_goals omega
      next => exact absurd h (by simp)
  | check i =>
      simp only [applyEv] at h
      split at h
      · injection h with h
        subst h
        rfl
      · exact absurd h (by simp)
  | endStreet =>
      simp only [applyEv] at h
      injection h with h
      subst h
      simp only [chipTotal, List.map_map, List.sum_append, List.sum_cons,
        List.sum_nil]
      have hst : (s.players.map
          (EPlayer.stack ∘ fun p => { p with bet := 0 })).sum =
          (s.players.map EPlayer.stack).sum := rfl
      have hbet : (s.players.map
          (EPlayer.bet ∘ fun p => { p with bet := 0 })).sum = 0 := by
        have hfun : (EPlayer.bet ∘ fun p : EPlayer => { p with bet := 0 }) =
            fun _ => 0 := rfl
        rw [hfun]
        simp
      rw [hst, hbet]
      omega
  | settle dist =>
      simp only [applyEv] at h
      split at h
      next hsum =>
        cases hs : settleAll s.players dist with
        | none => rw [hs] at h; exact absurd h (by simp)
        | some ps2 =>
            rw [hs] at h
            injection h with h
            subst h
            obtain ⟨ha, hb⟩ := settleAll_sums dist s.players ps2 hs
            simp only [stackSum, betSum] at ha hb
            simp only [chipTotal, List.sum_nil]
            omega
      next => exact absurd h (by simp)

theorem runEvents_conserves (es : List Ev) :
    ∀ (s s2 : EState), runEvents s es = some s2 →
      chipTotal s2 = chipTotal s := by
  induction es with
  | nil =>
      intro s s2 h
      simp only [runEvents] at h
      injection h with h
      subst h
      rfl
  | cons e es ih =>
      intro s s2 h
      simp only [runEvents] at h
      cases he : applyEv s e with
      | none => rw [he] at h; exact absurd h (by simp)
      | some sMid =>
          rw [he] at h
          rw [ih sMid s2 h]
          exact applyEv_conserves s sMid e he

theorem chipTotal_initSession (stackList : List ℕ) :
    chipTotal (initSession stackList) = stackList.sum := by
  simp only [chipTotal, initSession, List.map_map]
  have h1 : (EPlayer.stack ∘ fun c : ℕ =>
      ({ stack := c, bet := 0, folded := false } : EPlayer)) = id := rfl
  have h2 : (EPlayer.bet ∘ fun c : ℕ =>
      ({ stack := c, bet := 0, folded := false } : EPlayer)) = fun _ => 0 := rfl
  rw [h1, h2]
  simp

end PokerAI.Engine

namespace PokerAI

open Engine

/-! ## Helper lemmas about the action controls -/

theorem reachableBet_bounds (p : ControlsProps) (hmr : 0 < p.minRaise)
    (hms : p.minRaise ≤ p.playerStack) :
    ∀ b, ReachableBet p b → p.minRaise ≤ b ∧ b ≤ p.playerStack := by
  have hsi : (0 : ℚ) ≤ smallIncrement p.minRaise :=
    le_trans zero_le_one (le_max_left _ _)
  intro b hb
  induction hb with
  | init =>
      rw [jsOr, if_neg hmr.ne']
      exact ⟨le_rfl, hms⟩
  | effectReset h =>
      exact ⟨le_rfl, hms⟩
  | sliderBet b v hb hmin hmax ih =>
      rw [minBet, jsOr, if_neg hmr.ne'] at hmin
      exact ⟨hmin, hmax⟩
  | sliderRaise b v hb hmin hmax ih =>
      exact ⟨hmin, hmax⟩
  | increment b hb ih =>
      obtain ⟨h1, h2⟩ := ih
      constructor
      · exact le_min (by linarith) hms
      · exact min_le_right _ _
  | decrement b hb ih =>
      obtain ⟨h1, h2⟩ := ih
      constructor
      · exact le_max_right _ _
      · exact max_le (by linarith) hms

/-! ## The claims -/

/-- **C1**: for every reachable state of a game session — any state
produced from the session's initial state by a sequence of legal
events — the sum of all player stacks plus the sum of all players'
current bets plus the sum of all pot amounts equals the total chips in
play at session start. -/
theorem c1_chip_conservation (stackList : List ℕ) (es : List Ev)
    (s2 : EState) (h : runEvents (initSession stackList) es = some s2) :
    chipTotal s2 = stackList.sum := by
  rw [runEvents_conserves es _ s2 h, chipTotal_initSession]

/-- Witness for C1: a two-player session with stacks 5/5, blinds 1/2, a
call, a check, the street completing and the pot being settled; the
final chip total is still 10. -/
theorem c1_chip_conservation_witness :
    runEvents (initSession [5, 5])
        [Ev.postBlind 0 1, Ev.postBlind 1 2, Ev.put 0 1, Ev.check 1,
          Ev.endStreet, Ev.settle [(1, 4)]] =
      some { players := [{ stack := 3, bet := 0, folded := false },
                         { stack := 7, bet := 0, folded := false }],
             pots := [] } ∧
    chipTotal { players := [{ stack := 3, bet := 0, folded := false },
                            { stack := 7, bet := 0, folded := false }],
                pots := [] } = 10 :=
  ⟨by decide,
    c1_chip_conservation [5, 5]
      [Ev.postBlind 0 1, Ev.postBlind 1 2, Ev.put 0 1, Ev.check 1,
        Ev.endStreet, Ev.settle [(1, 4)]]
      { players := [{ stack := 3, bet := 0, folded := false },
                    { stack := 7, bet := 0, folded := false }],
        pots := [] }
      (by decide)⟩

/-- **C2** (counterexample): the claim's numeric scale — category 1 =
High Card up through category 10 = Royal Flush — is false on the code:
`getHandTypeText` maps category 1 to "Royal Flush" and category 10 to
"High Card". -/
theorem c2_hand_category_counterexample :
    handTypeText 1 = "Royal Flush" ∧ handTypeText 10 = "High Card" ∧
      ¬(handTypeText 1 = "High Card" ∧ handTypeText 10 = "Royal Flush") := by
  refine ⟨by decide, by decide, ?_⟩
  intro ⟨h1, _⟩
  exact absurd h1 (by decide)

/-- **C2** (amended): the hand-strength category is a numeric scale in
which lower is better, with category 1 = Royal Flush down through
category 10 = High Card; consequently the royal flush's category number
(1) is less than the four of a kind's (3), which is less than the full
house's (4). -/
theorem c2_hand_category_amended :
    (handTypeText 1 = "Royal Flush" ∧ handTypeText 2 = "Straight Flush" ∧
     handTypeText 3 = "Four of a Kind" ∧ handTypeText 4 = "Full House" ∧
     handTypeText 5 = "Flush" ∧ handTypeText 6 = "Straight" ∧
     handTypeText 7 = "Three of a Kind" ∧ handTypeText 8 = "Two Pair" ∧
     handTypeText 9 = "Pair" ∧ handTypeText 10 = "High Card") ∧
    ((1 : Int) < 3 ∧ (3 : Int) < 4) := by
  decide

/-- **C3**: if all but one player folded, the hand ends by fold: the
single remaining player is awarded the sum of every active pot with
reason `all_others_folded`, the result does not depend on the hand
evaluator (no evaluation is performed), and the fold-end display reports
only the winner and the amount with the reason that all other players
folded (no hole cards, no hand description). -/
theorem c3_fold_end (s : EState) (w : ℕ) (evalHand : ℕ → ℕ)
    (h : nonFolded s = [w]) :
    finishHand s evalHand = .foldEnd w s.pots.sum "all_others_folded" ∧
    (∀ evalHand2 : ℕ → ℕ, finishHand s evalHand = finishHand s evalHand2) ∧
    formatReason "all_others_folded" = "All other players folded" ∧
    (∀ (name : String) (amt : ℚ),
      renderFoldResult { winnerName := name, amount := amt } =
        { winnerName := name, amount := amt,
          reasonText := "All other players folded",
          holeCards := none, handDescription := none }) := by
  refine ⟨?_, ?_, by decide, fun name amt => rfl⟩
  · simp only [finishHand, h]
  · intro evalHand2
    simp only [finishHand, h]

/-- Witness for C3: a two-player state where player 0 folded and pots of
2 and 3 chips are active; the hand ends by fold awarding 5 to player 1,
independently of the evaluator. -/
theorem c3_fold_end_witness :
    nonFolded { players := [{ stack := 3, bet := 0, folded := true },
                            { stack := 5, bet := 0, folded := false }],
                pots := [2, 3] } = [1] ∧
    finishHand { players := [{ stack := 3, bet := 0, folded := true },
                             { stack := 5, bet := 0, folded := false }],
                 pots := [2, 3] } (fun _ => 0) =
      .foldEnd 1 5 "all_others_folded" :=
  ⟨by decide,
    (c3_fold_end
      { players := [{ stack := 3, bet := 0, folded := true },
                    { stack := 5, bet := 0, folded := false }],
        pots := [2, 3] } 1 (fun _ => 0) (by decide)).1⟩

/-- **C4** (counterexample): when no explicit minimum raise is supplied
(`minRaise` falsy) and the current bet is 5, the lower bound of the
offered BET amount is `currentBet * 2 = 10`, which differs from any big
blind of 2 — the code never consults the big blind. -/
theorem c4_min_bet_counterexample :
    minBet 0 5 = 10 ∧ (10 : ℚ) ≠ 2 := by
  constructor
  · simp [minBet, jsOr]
    norm_num
  · norm_num

/-- **C4** (amended): the lower bound of the offered BET amount equals
the engine-supplied minimum raise when one is supplied (non-zero), and
twice the current bet — not the big blind — when no explicit minimum
raise is supplied. -/
theorem c4_min_bet_amended (minRaise currentBet : ℚ) :
    (minRaise ≠ 0 → minBet minRaise currentBet = minRaise) ∧
    (minRaise = 0 → minBet minRaise currentBet = currentBet * 2) := by
  constructor <;> intro h <;> simp [minBet, jsOr, h]

/-- Witness for C4 (amended): with a supplied minimum raise of 3 the
lower bound is 3; with none supplied and current bet 5 it is 10. -/
theorem c4_min_bet_amended_witness :
    minBet 3 5 = 3 ∧ minBet 0 5 = 5 * 2 :=
  ⟨(c4_min_bet_amended 3 5).1 (by norm_num),
   (c4_min_bet_amended 0 5).2 rfl⟩

/-- **C5**: a submitted BET/RAISE amount below the minimum raise or
above the player's stack is rejected with `IllegalAmount` and the state
is returned unchanged (modelled engine), so the player may resubmit; and
every BET or RAISE amount the action controls allow to be submitted lies
between the minimum raise and the player's stack inclusive, provided the
engine supplies a positive minimum raise not exceeding the stack. -/
theorem c5_illegal_amount :
    (∀ (s : EState) (minRaiseAmt i amt : ℕ) (hi : i < s.players.length),
      (amt < minRaiseAmt ∨ (s.players.get ⟨i, hi⟩).stack < amt) →
      submitBetRaise s minRaiseAmt i amt = (s, some EngineError.IllegalAmount)) ∧
    (∀ p : ControlsProps, 0 < p.minRaise → p.minRaise ≤ p.playerStack →
      ∀ b, ReachableBet p b →
      ∀ pay : String × ℚ,
        (clickPayload p b .bet = some pay ∨ clickPayload p b .raise = some pay) →
        p.minRaise ≤ pay.2 ∧ pay.2 ≤ p.playerStack) := by
  constructor
  · intro s minRaiseAmt i amt hi hbad
    unfold submitBetRaise
    rw [dif_pos hi, if_pos hbad]
  · intro p hmr hms b hb pay hpay
    have hb2 := reachableBet_bounds p hmr hms b hb
    rcases hpay with hpay | hpay <;>
      · simp only [clickPayload] at hpay
        split at hpay
        · injection hpay with hpay
          subst hpay
          exact hb2
        · exact absurd hpay (by simp)

/-- Witness for C5: a bet of 2 with minimum raise 4 is rejected as
`IllegalAmount` leaving the state unchanged; and with minimum raise 2
and stack 10 the reachable bet amount 2 submitted by the BET button lies
in [2, 10]. -/
theorem c5_illegal_amount_witness :
    submitBetRaise
        { players := [{ stack := 10, bet := 0, folded := false }], pots := [] }
        4 0 2 =
      ({ players := [{ stack := 10, bet := 0, folded := false }], pots := [] },
        some EngineError.IllegalAmount) ∧
    ((2 : ℚ) ≤ ("BET", (2 : ℚ)).2 ∧ ("BET", (2 : ℚ)).2 ≤ (10 : ℚ)) :=
  ⟨c5_illegal_amount.1
      { players := [{ stack := 10, bet := 0, folded := false }], pots := [] }
      4 0 2 (by decide) (Or.inl (by decide)),
   c5_illegal_amount.2
      { validActions := ["BET"], currentBet := 0, minRaise := 2, playerStack := 10 }
      (by norm_num) (by norm_num) 2
      (ReachableBet.effectReset (by norm_num))
      ("BET", 2) (Or.inl rfl)⟩

/-- **C6**: a non-human player's hole cards are never shown before
showdown: the `showCards` flag computed for a rendered seat is false for
every non-human player while the betting round is not SHOWDOWN, and in
general it is true exactly when the player is the human viewer or the
hand has reached showdown. -/
theorem c6_hole_cards_hidden (isHuman : Bool) (round : String) :
    (isHuman = false → round ≠ "SHOWDOWN" → showCards isHuman round = false) ∧
    (showCards isHuman round = true ↔ (isHuman = true ∨ round = "SHOWDOWN")) := by
  constructor
  · intro h1 h2
    simp [showCards, h1, h2]
  · simp [showCards]

/-- Witness for C6: a non-human seat on the FLOP shows no cards; the
human seat always shows its own cards. -/
theorem c6_hole_cards_hidden_witness :
    showCards false "FLOP" = false ∧
    (showCards true "PREFLOP" = true ↔ (true = true ∨ "PREFLOP" = "SHOWDOWN")) :=
  ⟨(c6_hole_cards_hidden false "FLOP").1 rfl (by decide),
   (c6_hole_cards_hidden true "PREFLOP").2⟩

/-- **C7** (counterexample): the claim fails when the betting round is
SHOWDOWN: PREFLOP is strictly earlier than SHOWDOWN in the round order,
yet the indicator does not mark PREFLOP as past, because SHOWDOWN is not
in the indicator's list and `indexOf` yields −1. -/
theorem c7_round_indicator_counterexample :
    Round.idx .preflop < Round.idx .showdown ∧
      isPast "PREFLOP" "SHOWDOWN" = false := by
  constructor
  · decide
  · decide

/-- **C7** (amended): the betting round takes only the values Preflop,
Flop, Turn, River, Showdown and advances monotonically in that order,
never regressing; the indicator orders the four streets Preflop before
Flop before Turn before River and, when the current round is one of
those four streets, marks exactly the streets strictly earlier than it
as past; when the current round is SHOWDOWN (absent from the indicator's
list) no street is marked past. -/
theorem c7_round_monotone_amended :
    (∀ r : Round, r.idx ≤ (nextRound r).idx) ∧
    (∀ r : Round, r ≠ .showdown → r.idx < (nextRound r).idx) ∧
    (∀ (n : ℕ) (r : Round), r.idx ≤ (nextRound^[n] r).idx) ∧
    (∀ i j : Fin roundsList.length,
      isPast (roundsList.get i) (roundsList.get j) = true ↔ (i : ℕ) < (j : ℕ)) ∧
    (∀ r ∈ roundsList, isPast r "SHOWDOWN" = false) := by
  have hstep : ∀ r : Round, r.idx ≤ (nextRound r).idx := by decide
  refine ⟨hstep, by decide, ?_, by decide, by decide⟩
  intro n
  induction n with
  | zero => intro r; simp
  | succ m ih =>
      intro r
      rw [Function.iterate_succ_apply]
      exact le_trans (hstep r) (ih (nextRound r))

/-- Witness for C7 (amended): the Preflop step strictly advances; on the
FLOP the PREFLOP indicator is past and the TURN indicator is not;
RIVER is not marked past at SHOWDOWN. -/
theorem c7_round_monotone_amended_witness :
    Round.idx .preflop < Round.idx (nextRound .preflop) ∧
    (isPast (roundsList.get ⟨0, by decide⟩) (roundsList.get ⟨1, by decide⟩) =
        true ↔ (0 : ℕ) < 1) ∧
    isPast "RIVER" "SHOWDOWN" = false :=
  ⟨c7_round_monotone_amended.2.1 .preflop (by decide),
   c7_round_monotone_amended.2.2.2.1 ⟨0, by decide⟩ ⟨1, by decide⟩,
   c7_round_monotone_amended.2.2.2.2 "RIVER" (by decide)⟩

/-- **C8**: whenever the ALL_IN button is rendered and clicked, the
action submitted is ALL_IN with amount exactly the player's current
stack. -/
theorem c8_all_in_amount (p : ControlsProps) (b : ℚ) (pay : String × ℚ)
    (h : clickPayload p b .allIn = some pay) :
    pay = ("ALL_IN", p.playerStack) := by
  simp only [clickPayload] at h
  split at h
  · injection h with h
    exact h.symm
  · exact absurd h (by simp)

/-- Witness for C8: with a stack of 7 the ALL_IN click submits
`("ALL_IN", 7)`. -/
theorem c8_all_in_amount_witness :
    clickPayload
        { validActions := ["ALL_IN"], currentBet := 0, minRaise := 0,
          playerStack := 7 } 0 .allIn = some ("ALL_IN", 7) ∧
    ("ALL_IN", (7 : ℚ)) = ("ALL_IN", (7 : ℚ)) :=
  ⟨rfl,
    c8_all_in_amount
      { validActions := ["ALL_IN"], currentBet := 0, minRaise := 0,
        playerStack := 7 } 0 ("ALL_IN", 7) rfl⟩

/-- **C9**: replaying identical inputs reproduces identical outputs: the
engine model run on the same event sequence yields the same final state;
the hand-history-to-game-log mapping on the same `hand_history` yields
the same displayed log; and the log update does not depend on the
previous log value at all. -/
theorem c9_determinism :
    (∀ (s : EState) (es1 es2 : List Ev), es1 = es2 →
      runEvents s es1 = runEvents s es2) ∧
    (∀ h1 h2 : List HistoryItem, h1 = h2 → historyToLog h1 = historyToLog h2) ∧
    (∀ (prev1 prev2 : List LogEntry) (hh : List HistoryItem),
      nextGameLog prev1 hh = nextGameLog prev2 hh) :=
  ⟨fun _ _ _ h => by rw [h], fun _ _ h => by rw [h], fun _ _ _ => rfl⟩

/-- Witness for C9: concrete replays of the same inputs agree. -/
theorem c9_determinism_witness :
    runEvents (initSession [1]) [Ev.check 0] =
        runEvents (initSession [1]) [Ev.check 0] ∧
    historyToLog [{ type := "action", player_name := "You", action := "CALL",
                    amount := 2, data := [] }] =
      historyToLog [{ type := "action", player_name := "You", action := "CALL",
                      amount := 2, data := [] }] ∧
    nextGameLog []
        [{ type := "action", player_name := "You", action := "CALL",
           amount := 2, data := [] }] =
      nextGameLog [{ type := "deal", playerName := "", action := "",
                     amount := 0, data := [] }]
        [{ type := "action", player_name := "You", action := "CALL",
           amount := 2, data := [] }] :=
  ⟨c9_determinism.1 (initSession [1]) [Ev.check 0] [Ev.check 0] rfl,
   c9_determinism.2.1 _ _ rfl,
   c9_determinism.2.2 []
     [{ type := "deal", playerName := "", action := "", amount := 0, data := [] }]
     [{ type := "action", player_name := "You", action := "CALL",
        amount := 2, data := [] }]⟩

/-- **C10**: when CALL is among the legal actions and the player clicks
it, the amount submitted equals the table's full current bet-to-call,
and for any non-zero already-posted street bet it differs from the
difference between the bet-to-call and that posted bet. -/
theorem c10_call_amount (p : ControlsProps) (b : ℚ) (pay : String × ℚ)
    (h : clickPayload p b .call = some pay) :
    pay.1 = "CALL" ∧ pay.2 = p.currentBet ∧
      ∀ posted : ℚ, posted ≠ 0 → pay.2 ≠ p.currentBet - posted := by
  simp only [clickPayload] at h
  split at h
  · injection h with h
    subst h
    refine ⟨rfl, rfl, ?_⟩
    intro posted hp heq
    simp only at heq
    apply hp
    linarith
  · exact absurd h (by simp)

/-- Witness for C10: with a current bet of 6 the CALL click submits the
full 6, which differs from `6 - 2` for a posted street bet of 2. -/
theorem c10_call_amount_witness :
    clickPayload
        { validActions := ["CALL"], currentBet := 6, minRaise := 0,
          playerStack := 10 } 0 .call = some ("CALL", 6) ∧
    ("CALL", (6 : ℚ)).2 = 6 ∧ ("CALL", (6 : ℚ)).2 ≠ 6 - 2 :=
  ⟨rfl,
   (c10_call_amount
      { validActions := ["CALL"], currentBet := 6, minRaise := 0,
        playerStack := 10 } 0 ("CALL", 6) rfl).2.1,
   (c10_call_amount
      { validActions := ["CALL"], currentBet := 6, minRaise := 0,
        playerStack := 10 } 0 ("CALL", 6) rfl).2.2 2 (by norm_num)⟩

end PokerAI
